import Mathlib

/-!
# Verification of the ODANGO animation scheduler and interaction-mode controller

A shallow embedding of the pet animation module (`PetController`,
`MultiPetManager` in `src/anim/pet.ts`) and the interaction-mode module
(`src/interactionMode.ts`), with theorems checking the natural-language
specification against the code.

Modelling conventions:
* Pixel coordinates, widths and speeds are JavaScript numbers; they are
  embedded as `ℚ` (the code performs only field arithmetic, `min`/`max`,
  `Math.abs` and `Math.round` on them).
* `Math.random()` draws are threaded explicitly: a function that consumes
  randomness takes a `List ℚ` of pre-drawn values (each meant to lie in
  `[0,1)`) and returns `Option (result × List ℚ)`; `none` means the supply
  was exhausted (the rejection loop in `pickNewTarget` genuinely need not
  terminate on an adversarial random stream, so partiality is explicit).
* A DOM element is modelled by the fields the module reads or writes:
  `offsetWidth` (layout width, also written by `updateScale` through
  `style.width`), `left` (`style.left` / `offsetLeft`), and the
  `walking` / `facing-right` class flags.  Sprite-image loading
  (`updateSprite`) is an asynchronous, visual-only effect and is not part
  of the state model.
* The `requestAnimationFrame` loop is modelled by delivering `animate`
  ticks externally (`animateMany`); the nullable `animationFrameId` handle
  is modelled by the Boolean `running`.
-/

namespace Odango

/-- `SpriteFacing` from `types.ts`: the intrinsic orientation of a sprite. -/
inductive Facing where
  | left
  | right
deriving DecidableEq

/-- The slice of a DOM element that `pet.ts` reads and writes. -/
structure Elem where
  /-- Rendered width (`offsetWidth`; `updateScale` writes `style.width`). -/
  offsetWidth : ℚ
  /-- Horizontal offset (`style.left` / `offsetLeft`). -/
  left : ℚ
  /-- Whether the `facing-right` (mirror) class is set; `facing-left` is its negation. -/
  flipped : Bool
  /-- Whether the `walking` class is set. -/
  walking : Bool
deriving DecidableEq

/-- A freshly created `div` for a pet: no layout width yet, no classes. -/
def newElem : Elem := { offsetWidth := 0, left := 0, flipped := false, walking := false }

/-- `PetState` snapshot descriptor (fields of `types.ts` used by `pet.ts`). -/
structure PetState where
  odangoId : String
  scale : ℚ
  spritePath : String
  stage : String
  /-- `defaultFacing` may be absent (`state.defaultFacing || 'left'`). -/
  defaultFacing : Option Facing
deriving DecidableEq

/-- The mutable state of one `PetController` instance. -/
structure PetCtrl where
  elem : Elem
  containerWidth : ℚ
  x : ℚ
  /-- `1` = right, `-1` = left. -/
  direction : ℤ
  baseSpeed : ℚ
  scale : ℚ
  /-- `animationFrameId !== null`: the animation loop is running. -/
  running : Bool
  isPaused : Bool
  isMovementEnabled : Bool
  petId : String
  spritePath : String
  stage : String
  defaultFacing : Facing
  targetX : ℚ
  isResting : Bool
  restEndTime : ℚ
  speedMultiplier : ℚ
deriving DecidableEq

/-- `SPEED_MIN` in `pet.ts`. -/
def SPEED_MIN : ℚ := 3/10

/-- `SPEED_MAX` in `pet.ts`. -/
def SPEED_MAX : ℚ := 2

/-- `SPEED_DEFAULT` in `pet.ts`. -/
def SPEED_DEFAULT : ℚ := 1

/-- `BASE_PET_SIZE` in `pet.ts`. -/
def BASE_PET_SIZE : ℚ := 64

/-- `BASE_DISPLAY_MULTIPLIER` in `pet.ts`. -/
def BASE_DISPLAY_MULTIPLIER : ℚ := 3/2

/-- The `margin` constant (20) local to `PetController.pickNewTarget`. -/
def pickMargin : ℚ := 20

/-- The `margin` constant (10) local to `PetController.animate` and
`PetController.clampPositionToContainer`. -/
def tickMargin : ℚ := 10

/-- The `margin` constant (10) local to the pet-drag branch of
`onMouseMove` in `interactionMode.ts`. -/
def dragMargin : ℚ := 10

/-- `Math.abs`. -/
def jsAbs (q : ℚ) : ℚ := if q < 0 then -q else q

/-- `Math.max` (two arguments). -/
def jsMax (a b : ℚ) : ℚ := if a < b then b else a

/-- `Math.min` (two arguments). -/
def jsMin (a b : ℚ) : ℚ := if a < b then a else b

/-- `this.element.offsetWidth || 64`: JavaScript `||` falls back on the
falsy width `0` of an unstyled element. -/
def effWidth (e : Elem) : ℚ := if e.offsetWidth = 0 then 64 else e.offsetWidth

/-- Pop the next `Math.random()` draw from the supply. -/
def takeDraw : List ℚ → Option (ℚ × List ℚ)
  | [] => none
  | r :: rs => some (r, rs)

/-- `PetController.isEgg`: `this.stage === 'egg'`. -/
def isEgg (c : PetCtrl) : Bool := decide (c.stage = "egg")

/-- `PetController.updatePosition`: `this.element.style.left = this.x`. -/
def updatePosition (c : PetCtrl) : PetCtrl :=
  { c with elem := { c.elem with left := c.x } }

/-- The mirroring condition of `PetController.updateDirection`:
`(defaultFacing === 'left' && direction === 1) || (defaultFacing === 'right' && direction === -1)`. -/
def needsFlip : Facing → ℤ → Bool
  | .left, d => d == 1
  | .right, d => d == -1

/-- `PetController.updateDirection`: set the `facing-right` class iff the
sprite must be mirrored, else the `facing-left` class. -/
def updateDirection (c : PetCtrl) : PetCtrl :=
  { c with elem := { c.elem with flipped := needsFlip c.defaultFacing c.direction } }

/-- The `do { newTarget = minX + Math.random() * (maxX - minX) } while
(Math.abs(newTarget - x) < 50 && maxX - minX > 100)` loop of
`PetController.pickNewTarget`, over an explicit draw supply. -/
def pickTargetLoop (x minX maxX : ℚ) : List ℚ → Option (ℚ × List ℚ)
  | [] => none
  | r :: rs =>
    let newTarget := minX + r * (maxX - minX)
    if jsAbs (newTarget - x) < 50 ∧ maxX - minX > 100 then pickTargetLoop x minX maxX rs
    else some (newTarget, rs)

/-- `PetController.pickNewTarget`: draw a target in
`[margin, containerWidth - petWidth - margin]` (margin 20), retrying while
it is within 50 of the current position and the span exceeds 100; then set
`targetX`, derive `direction` from the comparison with `x`, and refresh the
mirror classes. -/
def pickNewTarget (c : PetCtrl) (draws : List ℚ) : Option (PetCtrl × List ℚ) :=
  let petWidth := effWidth c.elem
  let minX := pickMargin
  let maxX := c.containerWidth - petWidth - pickMargin
  match pickTargetLoop c.x minX maxX draws with
  | none => none
  | some (t, rest) =>
    some (updateDirection { c with targetX := t, direction := if t > c.x then 1 else -1 }, rest)

/-- `PetController.startResting`: rest for `2000 + Math.random() * 6000`
milliseconds from `now` and drop the `walking` class. -/
def startResting (now : ℚ) (c : PetCtrl) (draws : List ℚ) : Option (PetCtrl × List ℚ) :=
  match takeDraw draws with
  | none => none
  | some (r, rest) =>
    some ({ c with isResting := true, restEndTime := now + (2000 + r * 6000),
                   elem := { c.elem with walking := false } }, rest)

/-- `PetController.setSpeed`: clamp into `[SPEED_MIN, SPEED_MAX]`. -/
def setSpeed (speed : ℚ) (c : PetCtrl) : PetCtrl :=
  { c with baseSpeed := jsMax SPEED_MIN (jsMin SPEED_MAX speed) }

/-- `PetController.setMovementEnabled`. -/
def setMovementEnabled (enabled : Bool) (c : PetCtrl) : PetCtrl :=
  let c := { c with isMovementEnabled := enabled }
  if !enabled then { c with elem := { c.elem with walking := false } }
  else if !c.isPaused && c.running then { c with elem := { c.elem with walking := true } }
  else c

/-- `PetController.start` (the immediately issued `animate()` call begins
the tick loop, whose iterations are delivered through `animate`). -/
def start (c : PetCtrl) : PetCtrl :=
  if c.running then c
  else { c with running := true, elem := { c.elem with walking := true } }

/-- `PetController.updateScale`: write
`round(BASE_PET_SIZE * (scale * BASE_DISPLAY_MULTIPLIER * g))` pixels to the
element's width and height, where `g` is the global screen scale factor. -/
def updateScale (g : ℚ) (c : PetCtrl) : PetCtrl :=
  let size : ℚ := (round (BASE_PET_SIZE * (c.scale * BASE_DISPLAY_MULTIPLIER * g)) : ℤ)
  { c with elem := { c.elem with offsetWidth := size } }

/-- `PetController.updateState`: copy the snapshot-derived attributes and
rerun `updateScale` and `updateDirection` (`updateSprite` is an
asynchronous, visual-only background-image effect). -/
def updateState (g : ℚ) (c : PetCtrl) (p : PetState) : PetCtrl :=
  let c := { c with petId := p.odangoId, scale := p.scale, spritePath := p.spritePath,
                    stage := p.stage, defaultFacing := p.defaultFacing.getD Facing.left }
  updateDirection (updateScale g c)

/-- The `PetController` constructor: position (or the supplied `initialX`),
direction and `speedMultiplier` are randomized, then `pickNewTarget`,
`updatePosition` and `updateDirection` run. -/
def mkPetController (elem : Elem) (containerWidth : ℚ) (initialX : Option ℚ)
    (draws : List ℚ) : Option (PetCtrl × List ℚ) :=
  let xd : Option (ℚ × List ℚ) :=
    match initialX with
    | some x0 => some (x0, draws)
    | none =>
      match takeDraw draws with
      | none => none
      | some (r, rs) => some (r * (containerWidth - 100) + 50, rs)
  match xd with
  | none => none
  | some (x0, rs1) =>
    match takeDraw rs1 with
    | none => none
    | some (rd, rs2) =>
      match takeDraw rs2 with
      | none => none
      | some (rsp, rs3) =>
        let c : PetCtrl :=
          { elem := elem, containerWidth := containerWidth, x := x0,
            direction := if rd > 1/2 then 1 else -1,
            baseSpeed := SPEED_DEFAULT, scale := 1, running := false,
            isPaused := false, isMovementEnabled := true,
            petId := "", spritePath := "", stage := "egg",
            defaultFacing := Facing.left, targetX := 0,
            isResting := false, restEndTime := 0,
            speedMultiplier := 4/5 + rsp * (2/5) }
        match pickNewTarget c rs3 with
        | none => none
        | some (c1, rs4) => some (updateDirection (updatePosition c1), rs4)

/-- The resting branch of `PetController.animate`: once `now` reaches
`restEndTime`, clear `isResting`, pick a new target and restore the
`walking` class. -/
def animateRestCheck (now : ℚ) (c0 : PetCtrl) (draws : List ℚ) : Option (PetCtrl × List ℚ) :=
  if now ≥ c0.restEndTime then
    match pickNewTarget { c0 with isResting := false } draws with
    | none => none
    | some (c1, rest) => some ({ c1 with elem := { c1.elem with walking := true } }, rest)
  else some (c0, draws)

/-- The edge-detection step of `PetController.animate`: a position at or
past either container edge is clamped to the edge, and the pet starts a
rest and picks a new target there. -/
def animateBoundary (now : ℚ) (c1 : PetCtrl) (draws : List ℚ) : Option (PetCtrl × List ℚ) :=
  let petWidth := effWidth c1.elem
  if c1.x ≤ tickMargin then
    match startResting now { c1 with x := tickMargin } draws with
    | none => none
    | some (c2, rest) => pickNewTarget c2 rest
  else if c1.x ≥ c1.containerWidth - petWidth - tickMargin then
    match startResting now { c1 with x := c1.containerWidth - petWidth - tickMargin } draws with
    | none => none
    | some (c2, rest) => pickNewTarget c2 rest
  else some (c1, draws)

/-- The walking branch of `PetController.animate`: advance by
`baseSpeed * speedMultiplier * direction`, detect the edges, start a rest
when within `2 * effectiveSpeed` of the target, and write the position to
the element. -/
def animateWalk (now : ℚ) (c0 : PetCtrl) (draws : List ℚ) : Option (PetCtrl × List ℚ) :=
  let effectiveSpeed := c0.baseSpeed * c0.speedMultiplier
  let c1 := { c0 with x := c0.x + effectiveSpeed * (c0.direction : ℚ) }
  match animateBoundary now c1 draws with
  | none => none
  | some (c2, rest) =>
    match
      (if jsAbs (c2.x - c2.targetX) < effectiveSpeed * 2 then startResting now c2 rest
       else some (c2, rest)) with
    | none => none
    | some (c3, rest2) => some (updatePosition c3, rest2)

/-- One iteration of `PetController.animate` at time `now`: eggs skip all
position work; otherwise, unless paused or movement-disabled, either wait
out the current rest or walk. -/
def animate (now : ℚ) (c0 : PetCtrl) (draws : List ℚ) : Option (PetCtrl × List ℚ) :=
  if isEgg c0 then some (c0, draws)
  else if !c0.isPaused && c0.isMovementEnabled then
    if c0.isResting then animateRestCheck now c0 draws
    else animateWalk now c0 draws
  else some (c0, draws)

/-- Iterate `animate` over a list of `(now, draws)` ticks. -/
def animateMany (c : PetCtrl) : List (ℚ × List ℚ) → Option PetCtrl
  | [] => some c
  | (now, draws) :: rest =>
    match animate now c draws with
    | none => none
    | some (c', _) => animateMany c' rest

/-- `PetController.syncPosition`: read the position back from the element
and, unless the pet is an egg or resting, pick a fresh walk target. -/
def syncPosition (c : PetCtrl) (draws : List ℚ) : Option (PetCtrl × List ℚ) :=
  let c := { c with x := c.elem.left }
  if !(isEgg c) && !c.isResting then pickNewTarget c draws
  else some (c, draws)

/-- `PetDisplaySettings` in `pet.ts`. -/
structure PetDisplaySettings where
  movementEnabled : Bool
  movementSpeed : ℚ

/-- The `MultiPetManager` registry: `Map<string, PetController>` in insertion
order (`controllers`). -/
abbrev Registry := List (String × PetCtrl)

/-- The registry's id set, in insertion order (`controllers.keys()`). -/
def rkeys (R : Registry) : List String := R.map Prod.fst

/-- `controllers.get(id)`. -/
def rlookup : Registry → String → Option PetCtrl
  | [], _ => none
  | (i, c) :: R, id => if i = id then some c else rlookup R id

/-- `controllers.set(id, f(controller))` for an id already present: update
the entry in place. -/
def rupdate (R : Registry) (id : String) (f : PetCtrl → PetCtrl) : Registry :=
  R.map (fun e => if e.1 = id then (e.1, f e.2) else e)

/-- `MultiPetManager.addPet`: create a fresh element and controller with a
randomized position, apply the snapshot state, apply the per-pet settings
when a getter is installed, and start the animation loop.  `g` is the
global screen scale factor. -/
def addPet (g : ℚ) (settings : Option (String → PetDisplaySettings)) (containerWidth : ℚ)
    (p : PetState) (draws : List ℚ) : Option (PetCtrl × List ℚ) :=
  match mkPetController newElem containerWidth none draws with
  | none => none
  | some (c0, rest) =>
    let c1 := updateState g c0 p
    let c2 :=
      match settings with
      | none => c1
      | some getSettings =>
        setSpeed (getSettings p.odangoId).movementSpeed
          (setMovementEnabled (getSettings p.odangoId).movementEnabled c1)
    some (start c2, rest)

/-- The add-or-update loop of `MultiPetManager.updatePets`. -/
def updatePetsGo (g : ℚ) (settings : Option (String → PetDisplaySettings))
    (containerWidth : ℚ) : Registry → List PetState → List ℚ → Option (Registry × List ℚ)
  | R, [], draws => some (R, draws)
  | R, p :: ps, draws =>
    if p.odangoId ∈ rkeys R then
      updatePetsGo g settings containerWidth
        (rupdate R p.odangoId (fun c => updateState g c p)) ps draws
    else
      match addPet g settings containerWidth p draws with
      | none => none
      | some (c, rest) => updatePetsGo g settings containerWidth (R ++ [(p.odangoId, c)]) ps rest

/-- `MultiPetManager.updatePets`: remove the controllers whose ids are
absent from the snapshot, then add or update one controller per snapshot
entry. -/
def updatePets (g : ℚ) (settings : Option (String → PetDisplaySettings))
    (containerWidth : ℚ) (R : Registry) (pets : List PetState) (draws : List ℚ) :
    Option (Registry × List ℚ) :=
  let newIds := pets.map PetState.odangoId
  updatePetsGo g settings containerWidth
    (R.filter (fun e => decide (e.1 ∈ newIds))) pets draws

/-! ## Interaction-mode controller (`interactionMode.ts`) -/

/-- `HOLD_DURATION_MS` in `interactionMode.ts`. -/
def HOLD_DURATION_MS : ℚ := 500

/-- The hotkey-related module state of `interactionMode.ts`.
`holdCheckTimer` holds the fire time of the pending, not-yet-fired
`setTimeout`; `none` means no un-fired timer exists. -/
structure HotkeyState where
  isInteractionMode : Bool
  hotkeyPressedAt : Option ℚ
  holdCheckTimer : Option ℚ
deriving DecidableEq

/-- `onHotkeyPressed` at time `now`: ignored while `hotkeyPressedAt` is
set; otherwise record the press and arm the 500 ms hold timer. -/
def onHotkeyPressed (now : ℚ) (s : HotkeyState) : HotkeyState :=
  if s.hotkeyPressedAt.isSome then s
  else { s with hotkeyPressedAt := some now, holdCheckTimer := some (now + HOLD_DURATION_MS) }

/-- `onHotkeyReleased`: cancel the pending timer and clear the press
timestamp. -/
def onHotkeyReleased (s : HotkeyState) : HotkeyState :=
  { s with holdCheckTimer := none, hotkeyPressedAt := none }

/-- Deliver the `setTimeout` callback at time `now`: it runs only if an
un-fired timer is pending and its fire time has been reached; a fired
one-shot timer never fires again (the stale handle merely remains for
`clearTimeout`); the callback toggles the mode when `hotkeyPressedAt` is
still set. -/
def fireHoldTimer (now : ℚ) (s : HotkeyState) : HotkeyState :=
  match s.holdCheckTimer with
  | none => s
  | some ft =>
    if now ≥ ft then
      let s1 : HotkeyState := { s with holdCheckTimer := none }
      if s1.hotkeyPressedAt.isSome then
        { s1 with isInteractionMode := !s1.isInteractionMode }
      else s1
    else s

/-- The interleaved hotkey/timer event stream. -/
inductive HotkeyEvent where
  | pressed (t : ℚ)
  | released
  | timerCheck (t : ℚ)

/-- Dispatch one event. -/
def hotkeyStep (s : HotkeyState) : HotkeyEvent → HotkeyState
  | .pressed t => onHotkeyPressed t s
  | .released => onHotkeyReleased s
  | .timerCheck t => fireHoldTimer t s

/-- Process an event sequence. -/
def runHotkey (s : HotkeyState) (evs : List HotkeyEvent) : HotkeyState :=
  evs.foldl hotkeyStep s

/-- The resize edges (`resizeDirection`). -/
inductive ResizeEdge where
  | left
  | right
deriving DecidableEq

/-- The `isResizing` branch of `onMouseMove`: from the anchor width and
x-origin and the pointer delta, compute the new `(width, x, y)`: the width
delta is added (right edge) or subtracted (left edge), the width is floored
at 400, and on the left edge the x-origin follows the delta — pinned to
`windowStartX + (windowStartWidth - 400)` once the floor is reached. -/
def onMouseMoveResize (edge : ResizeEdge) (windowStartWidth windowStartX windowStartY
    deltaX : ℚ) : ℚ × ℚ × ℚ :=
  let newWidth :=
    match edge with
    | .right => windowStartWidth + deltaX
    | .left => windowStartWidth - deltaX
  let newX :=
    match edge with
    | .right => windowStartX
    | .left => windowStartX + deltaX
  let newWidth2 := jsMax 400 newWidth
  let newX2 :=
    if edge = ResizeEdge.left ∧ newWidth2 = 400 then
      windowStartX + (windowStartWidth - 400)
    else newX
  (newWidth2, newX2, windowStartY)

/-- The `isDraggingPet` branch of `onMouseMove`: move only the dragged
element, to the anchor position plus the pointer delta, clamped into
`[margin, windowWidth - petWidth - margin]` (margin 10); the controller's
own fields are untouched. -/
def onMouseMoveDragPet (c : PetCtrl) (petStartX dragStartX clientX windowWidth : ℚ) :
    PetCtrl :=
  let deltaX := clientX - dragStartX
  let newX := petStartX + deltaX
  let petWidth := c.elem.offsetWidth
  let newX2 := jsMax dragMargin (jsMin (windowWidth - petWidth - dragMargin) newX)
  { c with elem := { c.elem with left := newX2 } }

/-! ## Concrete sample states used to instantiate the theorems -/

/-- A mid-walk pet in a 300-wide container. -/
def demoPet : PetCtrl :=
  { elem := { offsetWidth := 64, left := 50, flipped := false, walking := true },
    containerWidth := 300, x := 50, direction := 1, baseSpeed := 1, scale := 1,
    running := true, isPaused := false, isMovementEnabled := true,
    petId := "p1", spritePath := "s.png", stage := "adult", defaultFacing := Facing.left,
    targetX := 200, isResting := false, restEndTime := 0, speedMultiplier := 1 }

/-- `demoPet` after one `animate` tick: one step to the right. -/
def demoPetTicked : PetCtrl :=
  { demoPet with x := 51, elem := { demoPet.elem with left := 51 } }

/-- An egg-stage pet. -/
def demoEggPet : PetCtrl := { demoPet with stage := "egg" }

/-- A pet in a container whose usable target span is 200. -/
def demoWidePet : PetCtrl := { demoPet with containerWidth := 304 }

/-- The controller after `pickNewTarget demoWidePet [0, 1/2]` (the first
draw lands within 50 of the position and is rejected; the second gives
target 120). -/
def demoWidePicked : PetCtrl := ((pickNewTarget demoWidePet [0, 1/2]).getD (demoWidePet, [])).1

/-- A pet at the left margin of a container whose usable target span is
exactly 100. -/
def demoNarrowPet : PetCtrl := { demoPet with containerWidth := 204, x := 20 }

/-- A resting pet being dragged. -/
def demoDragPet : PetCtrl := { demoPet with isResting := true }

/-- A one-entity snapshot. -/
def demoSnapshot : List PetState :=
  [{ odangoId := "p1", scale := 1, spritePath := "s.png", stage := "adult",
     defaultFacing := some Facing.left }]

/-- Draws consumed by `addPet` for the single entity of `demoSnapshot`. -/
def demoDraws : List ℚ := [1/2, 3/5, 1/2, 1/2]

/-- The registry produced by reconciling `demoSnapshot` into an empty
registry. -/
def demoReg1 : Registry := ((updatePets 1 none 200 [] demoSnapshot demoDraws).getD ([], [])).1

/-- A pass-through hotkey state with no pending press or timer. -/
def demoHotkey : HotkeyState :=
  { isInteractionMode := false, hotkeyPressedAt := none, holdCheckTimer := none }

/-! ## Helper lemmas -/

theorem jsAbs_eq (q : ℚ) : jsAbs q = |q| := by
  unfold jsAbs
  split
  · next h => exact (abs_of_neg h).symm
  · next h => exact (abs_of_nonneg (le_of_not_lt h)).symm

theorem jsMax_eq (a b : ℚ) : jsMax a b = max a b := by
  unfold jsMax
  rcases lt_or_ge a b with h | h
  · rw [if_pos h, max_eq_right h.le]
  · rw [if_neg (not_lt.mpr h), max_eq_left h]

theorem jsMin_eq (a b : ℚ) : jsMin a b = min a b := by
  unfold jsMin
  rcases lt_or_ge a b with h | h
  · rw [if_pos h, min_eq_left h.le]
  · rw [if_neg (not_lt.mpr h), min_eq_right h]

theorem effWidth_congr {e e' : Elem} (h : e'.offsetWidth = e.offsetWidth) :
    effWidth e' = effWidth e := by
  simp [effWidth, h]

/-- Inversion for `pickNewTarget`. -/
theorem pickNewTarget_eq {c : PetCtrl} {ds : List ℚ} {c' : PetCtrl} {rest : List ℚ}
    (h : pickNewTarget c ds = some (c', rest)) :
    ∃ t, pickTargetLoop c.x pickMargin (c.containerWidth - effWidth c.elem - pickMargin) ds
        = some (t, rest) ∧
      c' = updateDirection { c with targetX := t, direction := if t > c.x then 1 else -1 } := by
  simp only [pickNewTarget] at h
  split at h
  · exact absurd h (by simp)
  · next t rest' hp =>
    simp only [Option.some.injEq, Prod.mk.injEq] at h
    refine ⟨t, ?_, h.1.symm⟩
    rw [hp, h.2]

theorem pickNewTarget_preserves {c : PetCtrl} {ds : List ℚ} {c' : PetCtrl} {rest : List ℚ}
    (h : pickNewTarget c ds = some (c', rest)) :
    c'.x = c.x ∧ c'.containerWidth = c.containerWidth ∧
      c'.elem.offsetWidth = c.elem.offsetWidth ∧ c'.isResting = c.isResting := by
  obtain ⟨t, _, hc⟩ := pickNewTarget_eq h
  subst hc
  simp [updateDirection]

/-- Inversion for `startResting`. -/
theorem startResting_eq {now : ℚ} {c : PetCtrl} {ds : List ℚ} {c' : PetCtrl} {rest : List ℚ}
    (h : startResting now c ds = some (c', rest)) :
    ∃ r, ds = r :: rest ∧
      c' = { c with isResting := true, restEndTime := now + (2000 + r * 6000),
                    elem := { c.elem with walking := false } } := by
  cases ds with
  | nil => exact absurd h (by simp [startResting, takeDraw])
  | cons r rs =>
    simp only [startResting, takeDraw, Option.some.injEq, Prod.mk.injEq] at h
    exact ⟨r, by rw [h.2], h.1.symm⟩

/-- The rejection loop never retries when the span is at most 100: the
first draw is returned. -/
theorem pickTargetLoop_no_retry (x minX maxX r : ℚ) (rs : List ℚ)
    (hspan : maxX - minX ≤ 100) :
    pickTargetLoop x minX maxX (r :: rs) = some (minX + r * (maxX - minX), rs) := by
  rw [pickTargetLoop, if_neg]
  rintro ⟨-, h2⟩
  linarith

/-- When the span exceeds 100 the accepted draw is at least 50 away from
the current position. -/
theorem pickTargetLoop_far {x minX maxX : ℚ} {ds : List ℚ} {t : ℚ} {rest : List ℚ}
    (h : pickTargetLoop x minX maxX ds = some (t, rest)) (hspan : maxX - minX > 100) :
    50 ≤ |t - x| := by
  induction ds with
  | nil => exact absurd h (by simp [pickTargetLoop])
  | cons r rs ih =>
    rw [pickTargetLoop] at h
    split at h
    · exact ih h
    · next hcond =>
      simp only [Option.some.injEq, Prod.mk.injEq] at h
      rw [not_and_or] at hcond
      rcases hcond with hfar | hsp
      · rw [← h.1, ← jsAbs_eq]; exact le_of_not_lt hfar
      · exact absurd hspan hsp

/-- Every accepted draw lies in `[minX, maxX]` when the raw draws lie in
`[0, 1)` and the interval is non-empty. -/
theorem pickTargetLoop_bounds {x minX maxX : ℚ} {ds : List ℚ} {t : ℚ} {rest : List ℚ}
    (h : pickTargetLoop x minX maxX ds = some (t, rest))
    (hds : ∀ r ∈ ds, 0 ≤ r ∧ r < 1) (hle : minX ≤ maxX) :
    minX ≤ t ∧ t ≤ maxX := by
  induction ds with
  | nil => exact absurd h (by simp [pickTargetLoop])
  | cons r rs ih =>
    rw [pickTargetLoop] at h
    split at h
    · exact ih h (fun q hq => hds q (List.mem_cons_of_mem r hq))
    · simp only [Option.some.injEq, Prod.mk.injEq] at h
      obtain ⟨hr0, hr1⟩ := hds r (List.mem_cons_self r rs)
      have hs : (0:ℚ) ≤ maxX - minX := by linarith
      constructor
      · rw [← h.1]; nlinarith
      · rw [← h.1]; nlinarith

/-- The boundary-detection step keeps the position inside
`[tickMargin, containerWidth − petWidth − tickMargin]` whenever that
interval is non-empty, and does not touch the container width or the
element width. -/
theorem animateBoundary_bounds {now : ℚ} {c1 c2 : PetCtrl} {ds rest : List ℚ}
    (h : animateBoundary now c1 ds = some (c2, rest))
    (hwide : tickMargin ≤ c1.containerWidth - effWidth c1.elem - tickMargin) :
    (tickMargin ≤ c2.x ∧ c2.x ≤ c1.containerWidth - effWidth c1.elem - tickMargin)
    ∧ c2.containerWidth = c1.containerWidth ∧ c2.elem.offsetWidth = c1.elem.offsetWidth := by
  simp only [animateBoundary] at h
  split at h
  · next hle =>
    split at h
    · exact absurd h (by simp)
    · next c2' rest' hsr =>
      obtain ⟨r, _, hc2'⟩ := startResting_eq hsr
      obtain ⟨hx, hcw, how, -⟩ := pickNewTarget_preserves h
      subst hc2'
      simp only at hx hcw how
      exact ⟨⟨by rw [hx], by rw [hx]; exact hwide⟩, hcw, how⟩
  · next hgt =>
    split at h
    · next hge =>
      split at h
      · exact absurd h (by simp)
      · next c2' rest' hsr =>
        obtain ⟨r, _, hc2'⟩ := startResting_eq hsr
        obtain ⟨hx, hcw, how, -⟩ := pickNewTarget_preserves h
        subst hc2'
        simp only at hx hcw how
        exact ⟨⟨by rw [hx]; exact hwide, by rw [hx]⟩, hcw, how⟩
    · next hlt =>
      simp only [Option.some.injEq, Prod.mk.injEq] at h
      obtain ⟨hc, -⟩ := h
      subst hc
      exact ⟨⟨(not_le.mp hgt).le, (not_le.mp hlt).le⟩, rfl, rfl⟩

/-- The walking branch of `animate` keeps the position inside the tick
interval. -/
theorem animateWalk_bounds {now : ℚ} {c c' : PetCtrl} {ds rest : List ℚ}
    (h : animateWalk now c ds = some (c', rest))
    (hwide : tickMargin ≤ c.containerWidth - effWidth c.elem - tickMargin) :
    (tickMargin ≤ c'.x ∧ c'.x ≤ c.containerWidth - effWidth c.elem - tickMargin)
    ∧ c'.containerWidth = c.containerWidth ∧ c'.elem.offsetWidth = c.elem.offsetWidth := by
  simp only [animateWalk] at h
  split at h
  · exact absurd h (by simp)
  · next c2 rest1 hb =>
    have hb' := animateBoundary_bounds hb (by simpa using hwide)
    simp only at hb'
    obtain ⟨⟨hb1, hb2⟩, hbcw, hbow⟩ := hb'
    split at h
    · exact absurd h (by simp)
    · next c3 rest2 hst =>
      have h3 : c3.x = c2.x ∧ c3.containerWidth = c2.containerWidth ∧
          c3.elem.offsetWidth = c2.elem.offsetWidth := by
        split at hst
        · obtain ⟨r, -, hc3⟩ := startResting_eq hst
          subst hc3
          exact ⟨rfl, rfl, rfl⟩
        · simp only [Option.some.injEq, Prod.mk.injEq] at hst
          obtain ⟨hc, -⟩ := hst
          subst hc
          exact ⟨rfl, rfl, rfl⟩
      simp only [Option.some.injEq, Prod.mk.injEq] at h
      obtain ⟨hc, -⟩ := h
      subst hc
      simp only [updatePosition]
      exact ⟨⟨h3.1 ▸ hb1, h3.1 ▸ hb2⟩, h3.2.1.trans hbcw, h3.2.2.trans hbow⟩

/-- The rest-wait branch of `animate` never changes the position, the
container width or the element width. -/
theorem animateRestCheck_preserves {now : ℚ} {c c' : PetCtrl} {ds rest : List ℚ}
    (h : animateRestCheck now c ds = some (c', rest)) :
    c'.x = c.x ∧ c'.containerWidth = c.containerWidth ∧
      c'.elem.offsetWidth = c.elem.offsetWidth := by
  simp only [animateRestCheck] at h
  split at h
  · split at h
    · exact absurd h (by simp)
    · next c1 rest1 hp =>
      obtain ⟨hx, hcw, how, -⟩ := pickNewTarget_preserves hp
      simp only [Option.some.injEq, Prod.mk.injEq] at h
      obtain ⟨hc, -⟩ := h
      subst hc
      simp only at hx hcw how ⊢
      exact ⟨hx, hcw, how⟩
  · simp only [Option.some.injEq, Prod.mk.injEq] at h
    obtain ⟨hc, -⟩ := h
    subst hc
    exact ⟨rfl, rfl, rfl⟩

/-- Repeated `Pressed` events are ignored while a press is already
recorded. -/
theorem presses_ignored (s : HotkeyState) (ts : List ℚ) (h : s.hotkeyPressedAt.isSome = true) :
    runHotkey s (ts.map HotkeyEvent.pressed) = s := by
  induction ts with
  | nil => rfl
  | cons t ts ih =>
    have hstep : hotkeyStep s (HotkeyEvent.pressed t) = s := by
      simp [hotkeyStep, onHotkeyPressed, h]
    simp only [List.map_cons, runHotkey, List.foldl_cons, hstep]
    exact ih

/-- Timer checks before the pending timer's fire time do nothing. -/
theorem timer_checks_noop_before (s : HotkeyState) (ft : ℚ) (ts : List ℚ)
    (h : s.holdCheckTimer = some ft) (hts : ∀ t ∈ ts, t < ft) :
    runHotkey s (ts.map HotkeyEvent.timerCheck) = s := by
  induction ts with
  | nil => rfl
  | cons t ts ih =>
    have hstep : hotkeyStep s (HotkeyEvent.timerCheck t) = s := by
      have hlt := hts t (List.mem_cons_self t ts)
      simp [hotkeyStep, fireHoldTimer, h, not_le.mpr hlt]
    simp only [List.map_cons, runHotkey, List.foldl_cons, hstep]
    exact ih (fun q hq => hts q (List.mem_cons_of_mem t hq))

/-- Timer checks with no pending timer do nothing. -/
theorem timer_checks_noop_none (s : HotkeyState) (ts : List ℚ)
    (h : s.holdCheckTimer = none) :
    runHotkey s (ts.map HotkeyEvent.timerCheck) = s := by
  induction ts with
  | nil => rfl
  | cons t ts ih =>
    have hstep : hotkeyStep s (HotkeyEvent.timerCheck t) = s := by
      simp [hotkeyStep, fireHoldTimer, h]
    simp only [List.map_cons, runHotkey, List.foldl_cons, hstep]
    exact ih

/-! ## Claim theorems -/

/-- Applying the same snapshot state twice is the same as applying it
once: every field written by `updateState` depends only on the snapshot,
the global scale factor and fields `updateState` does not write. -/
theorem updateState_updateState (g : ℚ) (c : PetCtrl) (p1 p2 : PetState) :
    updateState g (updateState g c p1) p2 = updateState g c p2 := by
  simp [updateState, updateScale, updateDirection]

/-- `updateState` commutes with `setSpeed`. -/
theorem updateState_setSpeed (g v : ℚ) (c : PetCtrl) (p : PetState) :
    updateState g (setSpeed v c) p = setSpeed v (updateState g c p) := rfl

/-- `updateState` commutes with `setMovementEnabled`. -/
theorem updateState_setMovementEnabled (g : ℚ) (b : Bool) (c : PetCtrl) (p : PetState) :
    updateState g (setMovementEnabled b c) p = setMovementEnabled b (updateState g c p) := by
  cases b <;> cases hp : c.isPaused <;> cases hr : c.running <;>
    simp [setMovementEnabled, updateState, updateScale, updateDirection, hp, hr]

/-- `updateState` commutes with `start`. -/
theorem updateState_start (g : ℚ) (c : PetCtrl) (p : PetState) :
    updateState g (start c) p = start (updateState g c p) := by
  cases hr : c.running <;>
    simp [start, updateState, updateScale, updateDirection, hr]

/-- A freshly added controller is a fixed point of re-applying the same
snapshot state. -/
theorem addPet_fixed {g : ℚ} {st : Option (String → PetDisplaySettings)} {cw : ℚ}
    {p : PetState} {ds : List ℚ} {c0 : PetCtrl} {rest : List ℚ}
    (h : addPet g st cw p ds = some (c0, rest)) :
    updateState g c0 p = c0 := by
  simp only [addPet] at h
  split at h
  · exact absurd h (by simp)
  · next cmk rest' hmk =>
    simp only [Option.some.injEq, Prod.mk.injEq] at h
    obtain ⟨hc, -⟩ := h
    subst hc
    cases st with
    | none =>
      rw [updateState_start, updateState_updateState]
    | some f =>
      rw [updateState_start, updateState_setSpeed, updateState_setMovementEnabled,
        updateState_updateState]

theorem rkeys_rupdate (R : Registry) (id : String) (f : PetCtrl → PetCtrl) :
    rkeys (rupdate R id f) = rkeys R := by
  unfold rkeys rupdate
  rw [List.map_map]
  apply List.map_congr_left
  intro e he
  by_cases h : e.1 = id <;> simp [h]

theorem mem_rkeys {R : Registry} {id : String} :
    id ∈ rkeys R ↔ ∃ e ∈ R, e.1 = id := by
  simp [rkeys, List.mem_map]

/-- Updating every matching entry with a function that fixes it is the
identity. -/
theorem rupdate_eq_self (R : Registry) (id : String) (f : PetCtrl → PetCtrl)
    (h : ∀ e ∈ R, e.1 = id → f e.2 = e.2) : rupdate R id f = R := by
  induction R with
  | nil => rfl
  | cons e R ih =>
    have he : (if e.1 = id then (e.1, f e.2) else e) = e := by
      split
      · next heq => rw [h e (List.mem_cons_self e R) heq]
      · rfl
    simp only [rupdate, List.map_cons] at ih ⊢
    rw [he, ih (fun e' he' heq => h e' (List.mem_cons_of_mem e he') heq)]

/-- With nodup keys, two entries sharing a key are the same entry. -/
theorem nodup_entry_unique {R : Registry} (h : (rkeys R).Nodup)
    {e e' : String × PetCtrl} (he : e ∈ R) (he' : e' ∈ R) (heq : e.1 = e'.1) : e = e' := by
  induction R with
  | nil => cases he
  | cons a R ih =>
    simp only [rkeys, List.map_cons, List.nodup_cons] at h
    rcases List.mem_cons.mp he with rfl | he2
    · rcases List.mem_cons.mp he' with rfl | he2'
      · rfl
      · exact absurd (heq ▸ List.mem_map_of_mem Prod.fst he2') h.1
    · rcases List.mem_cons.mp he' with rfl | he2'
      · exact absurd (heq ▸ List.mem_map_of_mem Prod.fst he2) h.1
      · exact ih h.2 he2 he2'

/-- The add-or-update loop preserves nodup keys. -/
theorem updatePetsGo_keys_nodup {g : ℚ} {st : Option (String → PetDisplaySettings)}
    {cw : ℚ} : ∀ {pets : List PetState} {R : Registry} {ds : List ℚ} {R' : Registry}
    {ds' : List ℚ},
    updatePetsGo g st cw R pets ds = some (R', ds') → (rkeys R).Nodup → (rkeys R').Nodup := by
  intro pets
  induction pets with
  | nil =>
    intro R ds R' ds' h hR
    simp only [updatePetsGo, Option.some.injEq, Prod.mk.injEq] at h
    exact h.1 ▸ hR
  | cons p ps ih =>
    intro R ds R' ds' h hR
    simp only [updatePetsGo] at h
    split at h
    · exact ih h (by rw [rkeys_rupdate]; exact hR)
    · next hmem =>
      split at h
      · exact absurd h (by simp)
      · next c rest hadd =>
        refine ih h ?_
        have hk : rkeys (R ++ [(p.odangoId, c)]) = rkeys R ++ [p.odangoId] := by
          simp [rkeys]
        rw [hk, List.nodup_append]
        refine ⟨hR, List.nodup_singleton _, ?_⟩
        intro a ha hb
        rw [List.mem_singleton.mp hb] at ha
        exact hmem ha

/-- Entries whose key the snapshot never mentions survive the
add-or-update loop untouched. -/
theorem updatePetsGo_preserves_entry {g : ℚ} {st : Option (String → PetDisplaySettings)}
    {cw : ℚ} : ∀ {pets : List PetState} {R : Registry} {ds : List ℚ} {R' : Registry}
    {ds' : List ℚ},
    updatePetsGo g st cw R pets ds = some (R', ds') →
    ∀ e ∈ R, e.1 ∉ pets.map PetState.odangoId → e ∈ R' := by
  intro pets
  induction pets with
  | nil =>
    intro R ds R' ds' h e he _
    simp only [updatePetsGo, Option.some.injEq, Prod.mk.injEq] at h
    exact h.1 ▸ he
  | cons p ps ih =>
    intro R ds R' ds' h e he hid
    simp only [List.map_cons, List.mem_cons, not_or] at hid
    obtain ⟨hid1, hid2⟩ := hid
    simp only [updatePetsGo] at h
    split at h
    · refine ih h _ ?_ hid2
      have : (if e.1 = p.odangoId then (e.1, updateState g e.2 p) else e) = e := by
        rw [if_neg hid1]
      exact this ▸ List.mem_map_of_mem _ he
    · split at h
      · exact absurd h (by simp)
      · exact ih h _ (List.mem_append_left _ he) hid2

/-- Every registry key after the loop comes from the initial registry or
from the snapshot. -/
theorem updatePetsGo_keys_sub {g : ℚ} {st : Option (String → PetDisplaySettings)}
    {cw : ℚ} {S : List String} : ∀ {pets : List PetState} {R : Registry} {ds : List ℚ}
    {R' : Registry} {ds' : List ℚ},
    updatePetsGo g st cw R pets ds = some (R', ds') →
    (∀ e ∈ R, e.1 ∈ S) → (∀ p ∈ pets, p.odangoId ∈ S) →
    ∀ e ∈ R', e.1 ∈ S := by
  intro pets
  induction pets with
  | nil =>
    intro R ds R' ds' h hRS _ e he
    simp only [updatePetsGo, Option.some.injEq, Prod.mk.injEq] at h
    exact hRS e (h.1 ▸ he)
  | cons p ps ih =>
    intro R ds R' ds' h hRS hpS e he
    simp only [updatePetsGo] at h
    split at h
    · refine ih h ?_ (fun q hq => hpS q (List.mem_cons_of_mem p hq)) e he
      intro e' he'
      simp only [rupdate, List.mem_map] at he'
      obtain ⟨e0, he0, he0'⟩ := he'
      have : e'.1 = e0.1 := by
        rw [← he0']
        split <;> rfl
      exact this ▸ hRS e0 he0
    · split at h
      · exact absurd h (by simp)
      · refine ih h ?_ (fun q hq => hpS q (List.mem_cons_of_mem p hq)) e he
        intro e' he'
        rcases List.mem_append.mp he' with h1 | h1
        · exact hRS e' h1
        · rw [List.mem_singleton.mp h1]
          exact hpS p (List.mem_cons_self p ps)

/-- After the loop, each snapshot entity has a registry entry that is a
fixed point of re-applying its snapshot state. -/
theorem updatePetsGo_fixed {g : ℚ} {st : Option (String → PetDisplaySettings)}
    {cw : ℚ} : ∀ {pets : List PetState} {R : Registry} {ds : List ℚ} {R' : Registry}
    {ds' : List ℚ},
    updatePetsGo g st cw R pets ds = some (R', ds') →
    (pets.map PetState.odangoId).Nodup →
    ∀ p ∈ pets, ∃ e ∈ R', e.1 = p.odangoId ∧ updateState g e.2 p = e.2 := by
  intro pets
  induction pets with
  | nil => intro R ds R' ds' _ _ p hp; cases hp
  | cons p ps ih =>
    intro R ds R' ds' h hnd q hq
    simp only [List.map_cons, List.nodup_cons] at hnd
    simp only [updatePetsGo] at h
    rcases List.mem_cons.mp hq with rfl | hq2
    · split at h
      · next hmem =>
        obtain ⟨e0, he0, hk0⟩ := mem_rkeys.mp hmem
        have hmem'' : (e0.1, updateState g e0.2 q) ∈ rupdate R q.odangoId
            (fun c => updateState g c q) := by
          simp only [rupdate]
          exact List.mem_map.mpr ⟨e0, he0, by simp [hk0]⟩
        refine ⟨(e0.1, updateState g e0.2 q), ?_, hk0, updateState_updateState g e0.2 q q⟩
        refine updatePetsGo_preserves_entry h _ hmem'' ?_
        show e0.1 ∉ List.map PetState.odangoId ps
        rw [hk0]
        exact hnd.1
      · next hmem =>
        split at h
        · exact absurd h (by simp)
        · next c rest hadd =>
          refine ⟨(q.odangoId, c), ?_, rfl, addPet_fixed hadd⟩
          refine updatePetsGo_preserves_entry h _ ?_ ?_
          · exact List.mem_append_right _ (List.mem_singleton.mpr rfl)
          · show q.odangoId ∉ List.map PetState.odangoId ps
            exact hnd.1
    · split at h
      · exact ih h hnd.2 q hq2
      · split at h
        · exact absurd h (by simp)
        · exact ih h hnd.2 q hq2

/-- A second pass of the loop over a registry whose entries are already
fixed points changes nothing and consumes no randomness. -/
theorem updatePetsGo_noop {g : ℚ} {st : Option (String → PetDisplaySettings)} {cw : ℚ}
    (R' : Registry) (pets : List PetState) (d2 : List ℚ)
    (hkeys : (rkeys R').Nodup)
    (hfix : ∀ p ∈ pets, ∃ e ∈ R', e.1 = p.odangoId ∧ updateState g e.2 p = e.2) :
    updatePetsGo g st cw R' pets d2 = some (R', d2) := by
  induction pets with
  | nil => rfl
  | cons p ps ih =>
    obtain ⟨e, heR, hek, hefix⟩ := hfix p (List.mem_cons_self p ps)
    have hmem : p.odangoId ∈ rkeys R' := mem_rkeys.mpr ⟨e, heR, hek⟩
    have hupd : rupdate R' p.odangoId (fun c => updateState g c p) = R' := by
      refine rupdate_eq_self R' p.odangoId _ (fun e' he' hk => ?_)
      have : e' = e := nodup_entry_unique hkeys he' heR (hk.trans hek.symm)
      rw [this]
      exact hefix
    simp only [updatePetsGo, if_pos hmem, hupd]
    exact ih (fun q hq => hfix q (List.mem_cons_of_mem p hq))

/-- Event processing splits over concatenation. -/
theorem runHotkey_append (s : HotkeyState) (l1 l2 : List HotkeyEvent) :
    runHotkey s (l1 ++ l2) = runHotkey (runHotkey s l1) l2 := by
  simp [runHotkey, List.foldl_append]

/-- C4: a `Pressed` event followed by any number of further `Pressed`
events (key repeat) arms a single hold timer without changing the mode;
delivering the timer callback at or after `t0 + 500` toggles the mode
exactly once, and a repeated callback delivery cannot toggle again. -/
theorem hold_toggles_mode_exactly_once (s : HotkeyState) (t0 tf tf' : ℚ) (ts : List ℚ)
    (h0 : s.hotkeyPressedAt = none) (hfire : t0 + HOLD_DURATION_MS ≤ tf) :
    runHotkey s (HotkeyEvent.pressed t0 :: ts.map HotkeyEvent.pressed) =
      { isInteractionMode := s.isInteractionMode, hotkeyPressedAt := some t0,
        holdCheckTimer := some (t0 + HOLD_DURATION_MS) }
    ∧ runHotkey s ((HotkeyEvent.pressed t0 :: ts.map HotkeyEvent.pressed)
        ++ [HotkeyEvent.timerCheck tf]) =
      { isInteractionMode := !s.isInteractionMode, hotkeyPressedAt := some t0,
        holdCheckTimer := none }
    ∧ runHotkey s ((HotkeyEvent.pressed t0 :: ts.map HotkeyEvent.pressed)
        ++ [HotkeyEvent.timerCheck tf, HotkeyEvent.timerCheck tf']) =
      { isInteractionMode := !s.isInteractionMode, hotkeyPressedAt := some t0,
        holdCheckTimer := none } := by
  have hpress : hotkeyStep s (HotkeyEvent.pressed t0) =
      { isInteractionMode := s.isInteractionMode, hotkeyPressedAt := some t0,
        holdCheckTimer := some (t0 + HOLD_DURATION_MS) } := by
    simp [hotkeyStep, onHotkeyPressed, h0]
  have h1 : runHotkey s (HotkeyEvent.pressed t0 :: ts.map HotkeyEvent.pressed) =
      { isInteractionMode := s.isInteractionMode, hotkeyPressedAt := some t0,
        holdCheckTimer := some (t0 + HOLD_DURATION_MS) } := by
    have : runHotkey s (HotkeyEvent.pressed t0 :: ts.map HotkeyEvent.pressed) =
        runHotkey (hotkeyStep s (HotkeyEvent.pressed t0)) (ts.map HotkeyEvent.pressed) := rfl
    rw [this, hpress]
    exact presses_ignored _ ts rfl
  have hfire1 : hotkeyStep
      ({ isInteractionMode := s.isInteractionMode, hotkeyPressedAt := some t0,
         holdCheckTimer := some (t0 + HOLD_DURATION_MS) } : HotkeyState)
      (HotkeyEvent.timerCheck tf) =
      { isInteractionMode := !s.isInteractionMode, hotkeyPressedAt := some t0,
        holdCheckTimer := none } := by
    simp [hotkeyStep, fireHoldTimer, hfire]
  have h2 : runHotkey s ((HotkeyEvent.pressed t0 :: ts.map HotkeyEvent.pressed)
      ++ [HotkeyEvent.timerCheck tf]) =
      { isInteractionMode := !s.isInteractionMode, hotkeyPressedAt := some t0,
        holdCheckTimer := none } := by
    rw [runHotkey_append, h1]
    exact hfire1
  refine ⟨h1, h2, ?_⟩
  have hsplit : (HotkeyEvent.pressed t0 :: ts.map HotkeyEvent.pressed)
      ++ [HotkeyEvent.timerCheck tf, HotkeyEvent.timerCheck tf'] =
      ((HotkeyEvent.pressed t0 :: ts.map HotkeyEvent.pressed)
        ++ [HotkeyEvent.timerCheck tf]) ++ [HotkeyEvent.timerCheck tf'] := by
    simp
  rw [hsplit, runHotkey_append, h2]
  simp [runHotkey, hotkeyStep, fireHoldTimer]

/-- Witness for C4 from a clean pass-through state: presses at 0, 100, 200
and timer deliveries at 500 and 800 toggle the mode exactly once. -/
theorem hold_toggles_mode_exactly_once_witness :
    runHotkey demoHotkey (HotkeyEvent.pressed 0 :: [100, 200].map HotkeyEvent.pressed) =
      { isInteractionMode := demoHotkey.isInteractionMode, hotkeyPressedAt := some 0,
        holdCheckTimer := some (0 + HOLD_DURATION_MS) }
    ∧ runHotkey demoHotkey ((HotkeyEvent.pressed 0 :: [100, 200].map HotkeyEvent.pressed)
        ++ [HotkeyEvent.timerCheck 500]) =
      { isInteractionMode := !demoHotkey.isInteractionMode, hotkeyPressedAt := some 0,
        holdCheckTimer := none }
    ∧ runHotkey demoHotkey ((HotkeyEvent.pressed 0 :: [100, 200].map HotkeyEvent.pressed)
        ++ [HotkeyEvent.timerCheck 500, HotkeyEvent.timerCheck 800]) =
      { isInteractionMode := !demoHotkey.isInteractionMode, hotkeyPressedAt := some 0,
        holdCheckTimer := none } :=
  hold_toggles_mode_exactly_once demoHotkey 0 500 800 [100, 200] rfl
    (by norm_num [HOLD_DURATION_MS])

/-- C5: a `Pressed` event followed by a `Released` event before the 500 ms
timer fires never changes the mode: the release cancels the timer and
clears the press timestamp, so no toggle ever fires — the state returns to
exactly its pre-press value. -/
theorem short_press_never_toggles (s : HotkeyState) (t0 : ℚ) (checks post : List ℚ)
    (h0 : s.hotkeyPressedAt = none) (h1 : s.holdCheckTimer = none)
    (hc : ∀ t ∈ checks, t < t0 + HOLD_DURATION_MS) :
    runHotkey s (HotkeyEvent.pressed t0 ::
      (checks.map HotkeyEvent.timerCheck ++
        HotkeyEvent.released :: post.map HotkeyEvent.timerCheck)) = s := by
  obtain ⟨m, pa, tm⟩ := s
  simp only at h0 h1
  subst h0; subst h1
  have hpress : hotkeyStep ⟨m, none, none⟩ (HotkeyEvent.pressed t0) =
      ⟨m, some t0, some (t0 + HOLD_DURATION_MS)⟩ := by
    simp [hotkeyStep, onHotkeyPressed]
  have hrun : runHotkey (⟨m, none, none⟩ : HotkeyState) (HotkeyEvent.pressed t0 ::
      (checks.map HotkeyEvent.timerCheck ++
        HotkeyEvent.released :: post.map HotkeyEvent.timerCheck)) =
      runHotkey (⟨m, some t0, some (t0 + HOLD_DURATION_MS)⟩ : HotkeyState)
        (checks.map HotkeyEvent.timerCheck ++
          HotkeyEvent.released :: post.map HotkeyEvent.timerCheck) := by
    show runHotkey (hotkeyStep _ _) _ = _
    rw [hpress]
  rw [hrun, runHotkey_append,
    timer_checks_noop_before _ (t0 + HOLD_DURATION_MS) checks rfl hc]
  have hrel : hotkeyStep (⟨m, some t0, some (t0 + HOLD_DURATION_MS)⟩ : HotkeyState)
      HotkeyEvent.released = ⟨m, none, none⟩ := by
    simp [hotkeyStep, onHotkeyReleased]
  show runHotkey (hotkeyStep _ _) _ = _
  rw [hrel]
  exact timer_checks_noop_none _ post rfl

/-- Witness for C5: press at 0, timer checks at 100 and 499, release, then
a late check at 600 leave the clean state unchanged. -/
theorem short_press_never_toggles_witness :
    runHotkey demoHotkey (HotkeyEvent.pressed 0 ::
      ([100, 499].map HotkeyEvent.timerCheck ++
        HotkeyEvent.released :: [600].map HotkeyEvent.timerCheck)) = demoHotkey :=
  short_press_never_toggles demoHotkey 0 [100, 499] [600] rfl rfl
    (by norm_num [HOLD_DURATION_MS])

/-- C6: `updatePets` is idempotent: reconciling the same snapshot a second
time — with any randomness supply, settings getter and container width —
returns the registry of the first run unchanged (in particular the id set
and every snapshot-derived attribute: scale, sprite path, stage, default
facing), under the snapshot's id-uniqueness invariant. -/
theorem updatePets_idempotent (g cw cw2 : ℚ)
    (st st2 : Option (String → PetDisplaySettings))
    (R R1 : Registry) (pets : List PetState) (d1 rest1 d2 : List ℚ)
    (hnd : (pets.map PetState.odangoId).Nodup)
    (hR : (rkeys R).Nodup)
    (h : updatePets g st cw R pets d1 = some (R1, rest1)) :
    updatePets g st2 cw2 R1 pets d2 = some (R1, d2) := by
  simp only [updatePets] at h ⊢
  have hR0nodup : (rkeys (R.filter
      (fun e => decide (e.1 ∈ pets.map PetState.odangoId)))).Nodup :=
    hR.sublist ((List.filter_sublist R).map Prod.fst)
  have hkeys1 : (rkeys R1).Nodup := updatePetsGo_keys_nodup h hR0nodup
  have hfix := updatePetsGo_fixed h hnd
  have hkeysS : ∀ e ∈ R1, e.1 ∈ pets.map PetState.odangoId := by
    refine updatePetsGo_keys_sub h ?_ (fun p hp => List.mem_map_of_mem _ hp)
    intro e he
    have := List.of_mem_filter he
    exact of_decide_eq_true this
  have hfilter : R1.filter (fun e => decide (e.1 ∈ pets.map PetState.odangoId)) = R1 :=
    List.filter_eq_self.mpr (fun e he => decide_eq_true (hkeysS e he))
  rw [hfilter]
  exact updatePetsGo_noop R1 pets d2 hkeys1 hfix

/-- Witness for C6: reconciling the one-entity `demoSnapshot` into an
empty registry and then reconciling it again returns the same registry and
consumes no randomness. -/
theorem updatePets_idempotent_witness :
    updatePets 1 none 200 demoReg1 demoSnapshot [] = some (demoReg1, []) :=
  updatePets_idempotent 1 200 200 none none [] demoReg1 demoSnapshot demoDraws [] []
    (by simp [demoSnapshot]) (by simp [rkeys])
    (by norm_num [updatePets, updatePetsGo, addPet, mkPetController, takeDraw, pickNewTarget,
      pickTargetLoop, jsAbs, updateState, updateScale, updateDirection, needsFlip,
      updatePosition, start, rkeys, rupdate, effWidth, pickMargin, newElem, demoSnapshot,
      demoDraws, demoReg1, SPEED_DEFAULT, BASE_PET_SIZE, BASE_DISPLAY_MULTIPLIER, round_eq])

/-- C1: `animate` keeps the position inside
`[margin, containerWidth − renderedWidth − margin]` (margin 10): a moving
tick adds `baseSpeed × speedMultiplier × direction` and clamps to the
interval's edges; no tick moves a position that is inside the interval out
of it (stated for a non-empty interval). -/
theorem animate_keeps_position_in_bounds (now : ℚ) (c c' : PetCtrl) (ds rest : List ℚ)
    (hwide : tickMargin ≤ c.containerWidth - effWidth c.elem - tickMargin)
    (hlo : tickMargin ≤ c.x) (hhi : c.x ≤ c.containerWidth - effWidth c.elem - tickMargin)
    (h : animate now c ds = some (c', rest)) :
    tickMargin ≤ c'.x ∧ c'.x ≤ c'.containerWidth - effWidth c'.elem - tickMargin := by
  simp only [animate] at h
  split at h
  · simp only [Option.some.injEq, Prod.mk.injEq] at h
    obtain ⟨hc, -⟩ := h
    subst hc
    exact ⟨hlo, hhi⟩
  · split at h
    · split at h
      · obtain ⟨hx, hcw, how⟩ := animateRestCheck_preserves h
        rw [hx, hcw, effWidth_congr how]
        exact ⟨hlo, hhi⟩
      · obtain ⟨⟨h1, h2⟩, hcw, how⟩ := animateWalk_bounds h hwide
        rw [hcw, effWidth_congr how]
        exact ⟨h1, h2⟩
    · simp only [Option.some.injEq, Prod.mk.injEq] at h
      obtain ⟨hc, -⟩ := h
      subst hc
      exact ⟨hlo, hhi⟩

/-- Witness for C1: a concrete moving tick from 50 lands at 51, inside
`[10, 226]`. -/
theorem animate_keeps_position_in_bounds_witness :
    tickMargin ≤ demoPetTicked.x ∧
      demoPetTicked.x ≤ demoPetTicked.containerWidth - effWidth demoPetTicked.elem - tickMargin :=
  animate_keeps_position_in_bounds 0 demoPet demoPetTicked [] []
    (by norm_num [demoPet, effWidth, tickMargin])
    (by norm_num [demoPet, tickMargin])
    (by norm_num [demoPet, effWidth, tickMargin])
    (by norm_num [animate, animateWalk, animateBoundary, isEgg, effWidth, tickMargin, jsAbs,
      updatePosition, demoPet, demoPetTicked]; decide)

/-- C3: A left-edge resize from anchor width 500 with the pointer moved
+150 (width delta −150) floors the width at 400 and shifts the window
x-origin by exactly anchorWidth − 400 = +100, not by the full +150. -/
theorem left_resize_floor_pins_origin (sx sy : ℚ) :
    onMouseMoveResize ResizeEdge.left 500 sx sy 150 = (400, sx + 100, sy) := by
  norm_num [onMouseMoveResize, jsMax]

/-- C7: an egg-stage entity's state — in particular its position — is
invariant across any number of `animate` ticks, regardless of resting,
pause or movement-enabled state. -/
theorem egg_position_invariant (c : PetCtrl) (ticks : List (ℚ × List ℚ))
    (h : c.stage = "egg") :
    animateMany c ticks = some c := by
  induction ticks with
  | nil => rfl
  | cons tk rest ih =>
    obtain ⟨now, draws⟩ := tk
    have he : isEgg c = true := by simp [isEgg, h]
    simp [animateMany, animate, he, ih]

/-- Witness for C7 at a concrete egg and tick sequence. -/
theorem egg_position_invariant_witness :
    animateMany demoEggPet [(0, []), (1000, [1/2])] = some demoEggPet :=
  egg_position_invariant demoEggPet [(0, []), (1000, [1/2])] (by decide)

/-- C9: the rendered image is mirrored (`facing-right` class) iff the
sprite's default facing disagrees with the walk direction: left-facing
sprite moving right (+1), or right-facing sprite moving left (−1). -/
theorem mirrored_iff_facing_disagrees (c : PetCtrl) :
    (updateDirection c).elem.flipped = true ↔
      (c.defaultFacing = Facing.left ∧ c.direction = 1) ∨
      (c.defaultFacing = Facing.right ∧ c.direction = -1) := by
  cases hf : c.defaultFacing <;> simp [updateDirection, needsFlip, hf]

/-- C8: a pointer-move during an entity drag updates only the visual
handle's position — to the anchor position plus pointer delta, clamped into
`[10, windowWidth − petWidth − 10]` — and never the controller's internal
`x`; concretely, dragging from 50 by +30 in a 300-wide window with a
64-wide pet shows the handle at 80, and only `syncPosition` (pointer-up)
commits 80 into the internal position. -/
theorem drag_pet_moves_visual_only (c : PetCtrl) (petStartX dragStartX clientX windowWidth : ℚ) :
    (onMouseMoveDragPet c petStartX dragStartX clientX windowWidth).x = c.x
    ∧ (onMouseMoveDragPet c petStartX dragStartX clientX windowWidth).elem.left =
        max dragMargin (min (windowWidth - c.elem.offsetWidth - dragMargin)
          (petStartX + (clientX - dragStartX)))
    ∧ (onMouseMoveDragPet demoDragPet 50 0 30 300).elem.left = 80
    ∧ (syncPosition (onMouseMoveDragPet demoDragPet 50 0 30 300) []).map (fun p => p.1.x)
        = some 80 :=
  ⟨rfl, by simp [onMouseMoveDragPet, jsMax_eq, jsMin_eq],
    by norm_num [onMouseMoveDragPet, jsMax, jsMin, dragMargin, demoDragPet, demoPet],
    by norm_num [syncPosition, isEgg, onMouseMoveDragPet, jsMax, jsMin, dragMargin,
      demoDragPet, demoPet]⟩

/-- C2 counterexample: with a usable span of exactly 100
(`containerWidth − petWidth − 2·margin = 100`, here 204 − 64 − 40), a draw
landing exactly on the current position (distance 0 < 50) is accepted
without retry, because the code retries only while the span strictly
exceeds 100. -/
theorem span_eq_100_accepts_close_target :
    (pickNewTarget demoNarrowPet [0]).map (fun p => p.1.targetX) = some 20
    ∧ demoNarrowPet.containerWidth - effWidth demoNarrowPet.elem - 2 * pickMargin ≥ 100
    ∧ |(20:ℚ) - demoNarrowPet.x| < 50 :=
  ⟨by norm_num [pickNewTarget, pickTargetLoop, pickMargin, effWidth, jsAbs, updateDirection,
      needsFlip, demoNarrowPet, demoPet],
    by norm_num [demoNarrowPet, demoPet, effWidth, pickMargin],
    by norm_num [demoNarrowPet, demoPet]⟩

/-- C2 (amended): when the usable span strictly exceeds 100, the chosen
target is at least 50 away from the current position; when the span is at
most 100, the first draw is accepted without any retry. -/
theorem pick_target_retry_policy (c : PetCtrl) (ds : List ℚ) (c' : PetCtrl)
    (rest : List ℚ) (r : ℚ) (rs : List ℚ)
    (h : pickNewTarget c ds = some (c', rest)) :
    (100 < c.containerWidth - effWidth c.elem - 2 * pickMargin → 50 ≤ |c'.targetX - c.x|)
    ∧ (c.containerWidth - effWidth c.elem - 2 * pickMargin ≤ 100 →
        pickTargetLoop c.x pickMargin (c.containerWidth - effWidth c.elem - pickMargin) (r :: rs)
          = some (pickMargin + r * (c.containerWidth - effWidth c.elem - 2 * pickMargin), rs)) := by
  obtain ⟨t, hp, hc⟩ := pickNewTarget_eq h
  constructor
  · intro hspan
    have ht : c'.targetX = t := by subst hc; simp [updateDirection]
    rw [ht]
    exact pickTargetLoop_far hp (by linarith)
  · intro hspan
    have := pickTargetLoop_no_retry c.x pickMargin
      (c.containerWidth - effWidth c.elem - pickMargin) r rs (by linarith)
    rw [this]
    ring_nf

/-- Witness for C2's amended theorem: in a 304-wide container (span 200)
the draw sequence `[0, 1/2]` rejects the first draw (distance 30 < 50) and
accepts target 120, which is 70 away from position 50. -/
theorem pick_target_retry_policy_witness :
    (100 < demoWidePet.containerWidth - effWidth demoWidePet.elem - 2 * pickMargin →
      50 ≤ |demoWidePicked.targetX - demoWidePet.x|)
    ∧ (demoWidePet.containerWidth - effWidth demoWidePet.elem - 2 * pickMargin ≤ 100 →
        pickTargetLoop demoWidePet.x pickMargin
            (demoWidePet.containerWidth - effWidth demoWidePet.elem - pickMargin) ([0] ++ [])
          = some (pickMargin +
              0 * (demoWidePet.containerWidth - effWidth demoWidePet.elem - 2 * pickMargin), [])) :=
  pick_target_retry_policy demoWidePet [0, 1/2] demoWidePicked [] 0 []
    (by norm_num [pickNewTarget, pickTargetLoop, pickMargin, effWidth, jsAbs, updateDirection,
      needsFlip, demoWidePet, demoPet, demoWidePicked])

/-- C10: every target chosen by `pickNewTarget` lies within
`[20, containerWidth − petWidth − 20]` (margin 20, strictly tighter than
the 10-unit margins of the tick clamp and the entity-drag clamp), and the
walk direction is derived from the comparison of target and current
position. -/
theorem pick_target_within_margins (c : PetCtrl) (ds : List ℚ) (c' : PetCtrl)
    (rest : List ℚ)
    (hds : ∀ r ∈ ds, 0 ≤ r ∧ r < 1)
    (hw : effWidth c.elem + 2 * pickMargin ≤ c.containerWidth)
    (h : pickNewTarget c ds = some (c', rest)) :
    pickMargin ≤ c'.targetX
    ∧ c'.targetX ≤ c.containerWidth - effWidth c.elem - pickMargin
    ∧ c'.direction = (if c'.targetX > c.x then 1 else -1)
    ∧ tickMargin < pickMargin ∧ dragMargin < pickMargin := by
  obtain ⟨t, hp, hc⟩ := pickNewTarget_eq h
  have hb := pickTargetLoop_bounds hp hds (by unfold pickMargin at hw ⊢; linarith)
  have ht : c'.targetX = t := by subst hc; simp [updateDirection]
  have hd : c'.direction = (if t > c.x then 1 else -1) := by subst hc; simp [updateDirection]
  refine ⟨ht ▸ hb.1, ht ▸ hb.2, ?_, by norm_num [tickMargin, pickMargin],
    by norm_num [dragMargin, pickMargin]⟩
  rw [ht, hd]

/-- Witness for C10 at the 304-wide container with draws `[0, 1/2]`. -/
theorem pick_target_within_margins_witness :
    pickMargin ≤ demoWidePicked.targetX
    ∧ demoWidePicked.targetX ≤ demoWidePet.containerWidth - effWidth demoWidePet.elem - pickMargin
    ∧ demoWidePicked.direction = (if demoWidePicked.targetX > demoWidePet.x then 1 else -1)
    ∧ tickMargin < pickMargin ∧ dragMargin < pickMargin :=
  pick_target_within_margins demoWidePet [0, 1/2] demoWidePicked []
    (by norm_num)
    (by norm_num [demoWidePet, demoPet, effWidth, pickMargin])
    (by norm_num [pickNewTarget, pickTargetLoop, pickMargin, effWidth, jsAbs, updateDirection,
      needsFlip, demoWidePet, demoPet, demoWidePicked])

end Odango
